import Mathlib

/-!
Verification of the moderation / cross-reference / cache / query core of the
stellar backend, shallowly embedded in Lean 4.

Conventions of the embedding:
* Firestore timestamps are embedded as integer milliseconds (Int).
* The remote document store is embedded as a function from document id to an
  optional document; a Firestore batch reads the pre-commit store and applies
  its queued updates at commit, which the fold-based embeddings reproduce.
* TypeScript values that may be absent (undefined / null) are Option values.
* JavaScript truthiness on numbers matters in getMapData and getEventById:
  the number 0 and a null cache entry are falsy, which the embedding models
  explicitly where the source relies on it.
* The field datetime.end of a CoffeeEvent is named endMs here because end is
  a reserved word in Lean.
-/

/-! ## Data model (src/models/types.ts) -/

inductive EStatus where
  | pending | approved | rejected
deriving DecidableEq, Repr

inductive AStatus where
  | pending | approved | rejected | exists
deriving DecidableEq, Repr

/-- Denormalized performer snapshot stored on an event (artists array). -/
structure ArtistRef where
  id : String
  name : String
deriving DecidableEq, Repr

structure Coords where
  lat : ℚ
  lng : ℚ
deriving DecidableEq, Repr

/-- Event location; coordinates is Option because the source defensively
checks for its absence with optional chaining. -/
structure Location where
  name : String
  address : String
  coordinates : Option Coords
deriving DecidableEq, Repr

/-- datetime with start and end in milliseconds (end is reserved in Lean). -/
structure EventTime where
  start : Int
  endMs : Int
deriving DecidableEq, Repr

/-- CoffeeEvent, restricted to the fields the verified operations read. -/
structure Event where
  id : String
  title : String
  description : Option String
  artists : List ArtistRef
  location : Location
  datetime : EventTime
  status : EStatus
  rejectedReason : Option String
  createdBy : String
  createdAt : Int
deriving DecidableEq, Repr

/-- Artist (performer) document, restricted to the fields the verified
operations read; the id is the key under which the store holds it. -/
structure Artist where
  stageName : String
  status : AStatus
  rejectedReason : Option String
  createdBy : String
  activeEventIds : List String
  createdAt : Int
deriving DecidableEq, Repr

/-- Favorite row of the userFavorites collection. -/
structure Favorite where
  userId : String
  eventId : String
  createdAt : Int
deriving DecidableEq, Repr

/-- Error taxonomy; the thrown Error messages of the source are mapped to
these constructors (活動不存在 / 藝人不存在 to notFound, 權限不足 to
permissionDenied, 只能重新送審 to invalidTransition). -/
inductive Err where
  | notFound | permissionDenied | invalidTransition | storeUnavailable
deriving DecidableEq, Repr

/-- Extract the error of an Except value, if any. -/
def errOf {β : Type} : Except Err β → Option Err
  | .error e => some e
  | .ok _ => none

/-! ## Cache (src/utils/cache.ts)

MemoryCache is a key-value map with per-entry absolute expiry time.
Date.now() is passed explicitly as the now argument of each operation. -/

structure CacheItem (α : Type) where
  data : α
  expires : Int
deriving DecidableEq, Repr

abbrev MemoryCache (α : Type) := List (String × CacheItem α)

namespace MemoryCache

/-- Map.set: replace any existing entry for the key and record the new one.
expires is Date.now() plus ttlMinutes in milliseconds. -/
def set {α : Type} (c : MemoryCache α) (key : String) (data : α)
    (ttlMinutes : Int) (now : Int) : MemoryCache α :=
  (c.filter fun p => decide (p.1 ≠ key)) ++ [(key, ⟨data, now + ttlMinutes * 60 * 1000⟩)]

/-- get returns the stored value unless the entry is absent or past its
expiry; an expired entry is deleted (lazy eviction). The returned cache is
the state after the call. -/
def get {α : Type} (c : MemoryCache α) (key : String) (now : Int) :
    Option α × MemoryCache α :=
  match c.lookup key with
  | none => (none, c)
  | some item =>
    if item.expires < now then (none, c.filter fun p => decide (p.1 ≠ key))
    else (some item.data, c)

def del {α : Type} (c : MemoryCache α) (key : String) : MemoryCache α :=
  c.filter fun p => decide (p.1 ≠ key)

/-- clearPattern deletes every key containing the pattern as a substring;
substring matching is defined later and not needed by the cache claims. -/
def clear {α : Type} (_ : MemoryCache α) : MemoryCache α := []

end MemoryCache

lemma lookup_filter_ne {α : Type} (k : String) :
    ∀ l : List (String × CacheItem α),
      (l.filter fun p => decide (p.1 ≠ k)).lookup k = none := by
  intro l
  induction l with
  | nil => rfl
  | cons p l ih =>
    obtain ⟨pk, pv⟩ := p
    by_cases h : pk = k
    · simpa [List.filter_cons, h] using ih
    · have hbeq : (k == pk) = false := by simp [h, Ne.symm h]
      simp only [List.filter_cons, h, decide_not, decide_eq_true_eq]
      simpa [List.lookup, hbeq] using ih

lemma lookup_set {α : Type} (c : MemoryCache α) (k : String) (v : α)
    (ttl : Int) (now : Int) :
    (MemoryCache.set c k v ttl now).lookup k = some ⟨v, now + ttl * 60 * 1000⟩ := by
  unfold MemoryCache.set
  induction c with
  | nil => simp [List.lookup]
  | cons p l ih =>
    obtain ⟨pk, pv⟩ := p
    by_cases h : pk = k
    · simpa [List.filter_cons, h] using ih
    · have hbeq : (k == pk) = false := by simp [h, Ne.symm h]
      simp only [List.filter_cons, h, decide_not, decide_eq_true_eq]
      simpa [List.lookup, hbeq] using ih

/-- C7: setting a key and reading it back no later than the expiry returns
the stored value; reading strictly after the expiry returns not-found and
evicts the entry. The expiry is set time plus ttlMinutes in milliseconds. -/
theorem cache_set_get_ttl {α : Type} (c : MemoryCache α) (k : String) (v : α)
    (ttl : Int) (now t : Int) (httl : 0 < ttl) :
    (t ≤ now + ttl * 60 * 1000 →
      (MemoryCache.get (MemoryCache.set c k v ttl now) k t).1 = some v)
  ∧ (now + ttl * 60 * 1000 < t →
      (MemoryCache.get (MemoryCache.set c k v ttl now) k t).1 = none
    ∧ ((MemoryCache.get (MemoryCache.set c k v ttl now) k t).2.lookup k = none)) := by
  have hl := lookup_set c k v ttl now
  simp only [MemoryCache.get, hl]
  constructor
  · intro hle
    have hc : ¬(now + ttl * 60 * 1000 < t) := by omega
    rw [if_neg hc]
  · intro hgt
    rw [if_pos hgt]
    exact ⟨rfl, lookup_filter_ne k _⟩

/-- Witness for C7 at a concrete instance: key k1, value 7, ttl 5 minutes,
set at time 0; a read at 300000 (exactly the expiry) still hits, shown via
the theorem, and the hypothesis 0 < 5 is discharged concretely. -/
theorem cache_set_get_ttl_witness :
    (0 : Int) < 5
  ∧ (MemoryCache.get (MemoryCache.set ([] : MemoryCache Nat) "k1" 7 5 0) "k1" 300000).1 = some 7
  ∧ ((MemoryCache.get (MemoryCache.set ([] : MemoryCache Nat) "k1" 7 5 0) "k1" 300001).1 = none
    ∧ (MemoryCache.get (MemoryCache.set ([] : MemoryCache Nat) "k1" 7 5 0) "k1" 300001).2.lookup "k1" = none) :=
  ⟨by decide,
   (cache_set_get_ttl [] "k1" 7 5 0 300000 (by decide)).1 (by decide),
   (cache_set_get_ttl [] "k1" 7 5 0 300001 (by decide)).2 (by decide)⟩

/-! ## getEventById with null-result caching (src/services/eventService.ts 417-443)

The read path consults the cache first; the cached value has TypeScript type
CoffeeEvent or null, and the guard is the truthiness test if (cachedResult).
A cached null is falsy, so only a cached non-null event short-circuits the
store read. The embedding counts store reads to make that observable. -/

structure ReadState where
  cache : MemoryCache (Option Event)
  reads : Nat
deriving DecidableEq

def getEventById (store : String → Option Event) (now : Int)
    (eventId : String) (s : ReadState) : Option Event × ReadState :=
  let cacheKey := "event:" ++ eventId
  let res := MemoryCache.get s.cache cacheKey now
  match res.1 with
  | some (some ev) => (some ev, { s with cache := res.2 })
  | _ =>
    -- miss, expired, or cached null: the falsy guard falls through to the store
    match store eventId with
    | none => (none, ⟨MemoryCache.set res.2 cacheKey none 2 now, s.reads + 1⟩)
    | some ev => (some ev, ⟨MemoryCache.set res.2 cacheKey (some ev) 2 now, s.reads + 1⟩)

/-- C4: evidence of the divergence. With an empty store and a fresh cache,
the first getEventById stores the null result in the cache, yet the second
call within the TTL performs a second store read: the cached null is falsy,
so the guard treats it as a miss and queries the store again, contradicting
the stated purpose of caching the null result. -/
theorem getEventById_null_result_not_served_from_cache :
    (getEventById (fun _ => none) 0 "ghost" ⟨[], 0⟩).2.reads = 1
  ∧ ((getEventById (fun _ => none) 0 "ghost" ⟨[], 0⟩).2.cache.lookup "event:ghost"
      = some ⟨none, 2 * 60 * 1000⟩)
  ∧ (getEventById (fun _ => none) 0 "ghost"
      (getEventById (fun _ => none) 0 "ghost" ⟨[], 0⟩).2).2.reads = 2 := by
  refine ⟨rfl, ?_, rfl⟩
  decide

/-! ## Moderation engine and cross-reference maintainer
(src/services/eventService.ts 586-832, src/services/artistService.ts 152-371)

Stores are functions from document id to an optional document. A Firestore
batch reads the pre-commit store and applies its queued updates atomically
at commit; the folds below read the original store for every queued update,
exactly as the source loop does before batch.commit. -/

/-- Review target status for an event (the status parameter of
updateEventStatus has type approved or rejected). -/
inductive XStatus where
  | approved | rejected
deriving DecidableEq, Repr

def EStatus.ofX : XStatus → EStatus
  | .approved => .approved
  | .rejected => .rejected

/-- Review target status for an artist (approved, rejected or exists). -/
inductive YStatus where
  | approved | rejected | exists
deriving DecidableEq, Repr

def AStatus.ofY : YStatus → AStatus
  | .approved => .approved
  | .rejected => .rejected
  | .exists => .exists

/-- Per-artist activeEventIds update of updateArtistsActiveEventIds:
on approved, push the event id unless already present; on rejected, remove
every occurrence. -/
def updActive (status : XStatus) (eventId : String) (activeEventIds : List String) :
    List String :=
  match status with
  | .approved =>
    if eventId ∈ activeEventIds then activeEventIds else activeEventIds ++ [eventId]
  | .rejected => activeEventIds.filter fun id => decide (id ≠ eventId)

/-- One step of the batch loop in updateArtistsActiveEventIds: read the
artist from the original store and queue the update, skipping absent ids. -/
def applyArtistUpd (arts : String → Option Artist) (eventId : String)
    (status : XStatus) (acc : String → Option Artist) (artistId : String) :
    String → Option Artist :=
  match arts artistId with
  | none => acc
  | some a => fun q =>
      if q = artistId
      then some { a with activeEventIds := updActive status eventId a.activeEventIds }
      else acc q

/-- updateArtistsActiveEventIds: for every referenced artist id, update its
activeEventIds for the new effective state of the event (batched write). -/
def updateArtistsActiveEventIds (arts : String → Option Artist)
    (artistIds : List String) (eventId : String) (status : XStatus) :
    String → Option Artist :=
  artistIds.foldl (applyArtistUpd arts eventId status) arts

/-- One step of the batch loop in removeEventFromArtists. -/
def applyArtistRemove (arts : String → Option Artist) (eventId : String)
    (acc : String → Option Artist) (artistId : String) : String → Option Artist :=
  match arts artistId with
  | none => acc
  | some a => fun q =>
      if q = artistId
      then some { a with activeEventIds := a.activeEventIds.filter fun id => decide (id ≠ eventId) }
      else acc q

/-- removeEventFromArtists: drop the event id from every referenced artist
(used by deleteEvent). -/
def removeEventFromArtists (arts : String → Option Artist)
    (artistIds : List String) (eventId : String) : String → Option Artist :=
  artistIds.foldl (applyArtistRemove arts eventId) arts

/-- The two collections the moderation engine touches. -/
structure DB where
  events : String → Option Event
  artists : String → Option Artist

/-- updateEventStatus: admin review of an event. There is no check of the
current status; the document is updated to the target status and the
cross-reference maintainer is invoked for every referenced artist. A throw
inside updateArtistsActiveEventIds is caught and logged there; crossFail
true models such a throw (the batch commits nothing), and the operation
still succeeds. rejectedReason is set when rejecting with a reason, cleared
when approving, and left untouched when rejecting without a reason. -/
def updateEventStatus (crossFail : Bool) (db : DB) (eventId : String)
    (status : XStatus) (reason : Option String) : Except Err (DB × Event) :=
  match db.events eventId with
  | none => .error .notFound
  | some existingData =>
    let rejectedReason : Option String :=
      match status, reason with
      | .rejected, some r => some r
      | .rejected, none => existingData.rejectedReason
      | .approved, _ => none
    let newStatus := EStatus.ofX status
    let updated := { existingData with status := newStatus, rejectedReason := rejectedReason }
    let events1 : String → Option Event :=
      fun q => if q = eventId then some updated else db.events q
    let artists1 :=
      if crossFail then db.artists
      else updateArtistsActiveEventIds db.artists
        (existingData.artists.map (·.id)) eventId status
    .ok ({ events := events1, artists := artists1 }, updated)

/-- resubmitEvent: only the creator may resubmit, and only from rejected;
the status returns to pending and rejectedReason is cleared. The
cross-reference maintainer is invoked with rejected (the event is no longer
approved). -/
def resubmitEvent (db : DB) (eventId userId : String) : Except Err (DB × Event) :=
  match db.events eventId with
  | none => .error .notFound
  | some existingData =>
    if existingData.createdBy ≠ userId then .error .permissionDenied
    else if existingData.status ≠ .rejected then .error .invalidTransition
    else
      let updated := { existingData with status := EStatus.pending, rejectedReason := none }
      let events1 : String → Option Event :=
        fun q => if q = eventId then some updated else db.events q
      let artists1 := updateArtistsActiveEventIds db.artists
        (existingData.artists.map (·.id)) eventId .rejected
      .ok ({ events := events1, artists := artists1 }, updated)

/-- deleteEvent: admins may delete any event, others only their own; the
event id is removed from every referenced artist before the hard delete.
crossFail true models a throw inside removeEventFromArtists, which is
caught and logged there, so the delete still completes. -/
def deleteEvent (crossFail : Bool) (db : DB) (eventId userId userRole : String) :
    Except Err DB :=
  match db.events eventId with
  | none => .error .notFound
  | some eventData =>
    if userRole ≠ "admin" ∧ eventData.createdBy ≠ userId then .error .permissionDenied
    else
      let artists1 :=
        if crossFail then db.artists
        else removeEventFromArtists db.artists (eventData.artists.map (·.id)) eventId
      .ok { events := fun q => if q = eventId then none else db.events q,
            artists := artists1 }

/-- updateArtistStatus: admin review of an artist. The source performs no
status check and no read before the write (the frontend is trusted);
a Firestore update of a missing document fails, embedded as notFound.
approved and exists clear rejectedReason; rejected with a reason records
it, rejected without a reason leaves the field untouched. -/
def updateArtistStatus (arts : String → Option Artist) (artistId : String)
    (status : YStatus) (reason : Option String) :
    Except Err (String → Option Artist) :=
  match arts artistId with
  | none => .error .notFound
  | some a =>
    let rejectedReason : Option String :=
      match status, reason with
      | .rejected, some r => some r
      | .rejected, none => a.rejectedReason
      | _, _ => none
    .ok fun q =>
      if q = artistId
      then some { a with status := AStatus.ofY status, rejectedReason := rejectedReason }
      else arts q

/-- resubmitArtist: only the creator may resubmit, and only from rejected. -/
def resubmitArtist (arts : String → Option Artist) (artistId userId : String) :
    Except Err (String → Option Artist) :=
  match arts artistId with
  | none => .error .notFound
  | some existingData =>
    if existingData.createdBy ≠ userId then .error .permissionDenied
    else if existingData.status ≠ .rejected then .error .invalidTransition
    else .ok fun q =>
      if q = artistId
      then some { existingData with status := AStatus.pending, rejectedReason := none }
      else arts q

/-- Pointwise effect of the updateArtistsActiveEventIds fold: an artist id
that occurs in the list and exists in the store gets its activeEventIds
updated from the original store; every other key keeps the accumulator
value. -/
lemma updateArtistsActiveEventIds_apply (arts : String → Option Artist)
    (eventId : String) (status : XStatus) :
    ∀ (ids : List String) (acc : String → Option Artist) (q : String),
      (ids.foldl (applyArtistUpd arts eventId status) acc) q =
        match arts q with
        | some a =>
          if q ∈ ids
          then some { a with activeEventIds := updActive status eventId a.activeEventIds }
          else acc q
        | none => acc q := by
  intro ids
  induction ids with
  | nil =>
    intro acc q
    cases h : arts q <;> simp [h]
  | cons aid ids ih =>
    intro acc q
    rw [List.foldl_cons, ih]
    cases hq : arts q with
    | some a =>
      by_cases hmem : q ∈ ids
      · simp [hq, hmem]
      · by_cases hqa : q = aid
        · subst hqa
          simp [applyArtistUpd, hq, hmem]
        · simp [applyArtistUpd, hq, hmem, hqa]
          cases haid : arts aid <;> simp [hqa]
    | none =>
      cases haid : arts aid with
      | none => simp [applyArtistUpd, hq, haid]
      | some a2 =>
        by_cases hqa : q = aid
        · subst hqa; rw [hq] at haid; exact absurd haid (by simp)
        · simp [applyArtistUpd, hq, haid, hqa]

/-- C1: effect of the cross-reference maintainer on a referenced performer
that exists in the store. Approving adds the event id only if absent (the
add is idempotent and preserves Nodup), a not-approved state removes it,
approving then rejecting leaves the event id absent, and the same holds
through the triggering updateEventStatus call. -/
theorem activeEventIds_add_remove (arts : String → Option Artist)
    (ids : List String) (eventId pid : String) (a : Artist)
    (hmem : pid ∈ ids) (ha : arts pid = some a) :
    (updateArtistsActiveEventIds arts ids eventId .approved pid
        = some { a with activeEventIds := updActive .approved eventId a.activeEventIds })
  ∧ eventId ∈ updActive .approved eventId a.activeEventIds
  ∧ (a.activeEventIds.Nodup → (updActive .approved eventId a.activeEventIds).Nodup)
  ∧ (eventId ∈ a.activeEventIds → updActive .approved eventId a.activeEventIds = a.activeEventIds)
  ∧ (∀ l, updActive .approved eventId (updActive .approved eventId l) = updActive .approved eventId l)
  ∧ (updateArtistsActiveEventIds arts ids eventId .rejected pid
        = some { a with activeEventIds := updActive .rejected eventId a.activeEventIds })
  ∧ eventId ∉ updActive .rejected eventId a.activeEventIds
  ∧ (∃ a2, updateArtistsActiveEventIds
        (updateArtistsActiveEventIds arts ids eventId .approved) ids eventId .rejected pid
          = some a2
      ∧ eventId ∉ a2.activeEventIds)
  ∧ (∀ (db : DB) (e : Event), db.events eventId = some e →
      e.artists.map (·.id) = ids → db.artists = arts → ∀ st : XStatus,
      ∃ db' e', updateEventStatus false db eventId st none = .ok (db', e')
        ∧ db'.artists = updateArtistsActiveEventIds arts ids eventId st) := by
  have key := updateArtistsActiveEventIds_apply arts eventId .approved ids arts pid
  have keyR := updateArtistsActiveEventIds_apply arts eventId .rejected ids arts pid
  rw [ha] at key keyR
  simp only [hmem, if_pos] at key keyR
  refine ⟨key, ?_, ?_, ?_, ?_, keyR, ?_, ?_, ?_⟩
  · by_cases h : eventId ∈ a.activeEventIds <;> simp [updActive, h]
  · intro hnd
    by_cases h : eventId ∈ a.activeEventIds <;> simp [updActive, h, hnd, List.nodup_append]
  · intro h; simp [updActive, h]
  · intro l
    by_cases h : eventId ∈ l <;> simp [updActive, h]
  · simp [updActive, List.mem_filter]
  · have hinner : updateArtistsActiveEventIds arts ids eventId .approved pid
        = some { a with activeEventIds := updActive .approved eventId a.activeEventIds } := key
    have key2 := updateArtistsActiveEventIds_apply
      (updateArtistsActiveEventIds arts ids eventId .approved) eventId .rejected ids
      (updateArtistsActiveEventIds arts ids eventId .approved) pid
    rw [hinner] at key2
    simp only [hmem, if_pos] at key2
    exact ⟨_, key2, by simp [updActive, List.mem_filter]⟩
  · intro db e hdb hids harts st
    simp only [updateEventStatus, hdb]
    subst hids
    subst harts
    exact ⟨_, _, rfl, rfl⟩

/-- Concrete artist used by witnesses. -/
def aP : Artist :=
  { stageName := "star", status := .approved, rejectedReason := none,
    createdBy := "u1", activeEventIds := [], createdAt := 0 }

/-- Concrete one-artist store used by witnesses. -/
def artsW : String → Option Artist := fun q => if q = "p1" then some aP else none

/-- Witness for C1: one performer p1 referenced by event e1; the theorem is
applied at this instance and its approved-update conclusion is read off. -/
theorem activeEventIds_add_remove_witness :
    ("p1" ∈ ["p1"] ∧ artsW "p1" = some aP)
  ∧ (updateArtistsActiveEventIds artsW ["p1"] "e1" XStatus.approved "p1"
      = some { aP with activeEventIds := updActive XStatus.approved "e1" aP.activeEventIds }) :=
  ⟨⟨by decide, rfl⟩,
   (activeEventIds_add_remove artsW ["p1"] "e1" "p1" aP (by decide) rfl).1⟩

/-- Concrete approved event referencing performer p1, created by alice. -/
def eApproved : Event :=
  { id := "e1", title := "cafe", description := none,
    artists := [{ id := "p1", name := "star" }],
    location := { name := "shop", address := "road", coordinates := some ⟨25, 121⟩ },
    datetime := { start := 0, endMs := 1000 },
    status := .approved, rejectedReason := none, createdBy := "alice", createdAt := 0 }

/-- Concrete database holding only eApproved and the artist p1. -/
def dbApproved : DB :=
  { events := fun q => if q = "e1" then some eApproved else none, artists := artsW }

/-- C2 (amended): resubmission succeeds exactly when the record is rejected
and the caller is the creator; a non-creator always gets the permission
error (the creator check runs first), and a creator resubmitting a
non-rejected record gets the invalid-transition error; on success the
status returns to pending and rejectedReason is cleared. Stated for both
resubmitEvent and resubmitArtist. -/
theorem resubmit_rejected_creator_only
    (db : DB) (arts : String → Option Artist)
    (eventId userId artistId userId2 : String) (e : Event) (a : Artist)
    (he : db.events eventId = some e) (ha : arts artistId = some a) :
    ((∃ r, resubmitEvent db eventId userId = .ok r)
        ↔ (e.status = .rejected ∧ e.createdBy = userId))
  ∧ (e.createdBy ≠ userId →
      resubmitEvent db eventId userId = .error .permissionDenied)
  ∧ (e.createdBy = userId → e.status ≠ .rejected →
      resubmitEvent db eventId userId = .error .invalidTransition)
  ∧ (∀ db' e', resubmitEvent db eventId userId = .ok (db', e') →
      e'.status = .pending ∧ e'.rejectedReason = none ∧ db'.events eventId = some e')
  ∧ ((∃ r, resubmitArtist arts artistId userId2 = .ok r)
        ↔ (a.status = .rejected ∧ a.createdBy = userId2))
  ∧ (a.createdBy ≠ userId2 →
      resubmitArtist arts artistId userId2 = .error .permissionDenied)
  ∧ (a.createdBy = userId2 → a.status ≠ .rejected →
      resubmitArtist arts artistId userId2 = .error .invalidTransition)
  ∧ (∀ arts2, resubmitArtist arts artistId userId2 = .ok arts2 →
      ∃ a2, arts2 artistId = some a2 ∧ a2.status = .pending ∧ a2.rejectedReason = none) := by
  refine ⟨?_, ?_, ?_, ?_, ?_, ?_, ?_, ?_⟩
  · constructor
    · rintro ⟨r, hr⟩
      simp only [resubmitEvent, he] at hr
      by_cases hc : e.createdBy = userId
      · by_cases hs : e.status = .rejected
        · exact ⟨hs, hc⟩
        · simp [hc, hs] at hr
      · simp [hc] at hr
    · rintro ⟨hs, hc⟩
      simp [resubmitEvent, he, hc, hs]
  · intro hc
    simp [resubmitEvent, he, hc]
  · intro hc hs
    simp [resubmitEvent, he, hc, hs]
  · intro db' e' h
    simp only [resubmitEvent, he] at h
    by_cases hc : e.createdBy = userId
    · by_cases hs : e.status = .rejected
      · simp only [hc, hs, ne_eq, not_true_eq_false, if_false, ite_false,
          Except.ok.injEq, Prod.mk.injEq] at h
        obtain ⟨hdb, hev⟩ := h
        subst hdb; subst hev
        refine ⟨rfl, rfl, ?_⟩
        simp
      · simp [hc, hs] at h
    · simp [hc] at h
  · constructor
    · rintro ⟨r, hr⟩
      simp only [resubmitArtist, ha] at hr
      by_cases hc : a.createdBy = userId2
      · by_cases hs : a.status = .rejected
        · exact ⟨hs, hc⟩
        · simp [hc, hs] at hr
      · simp [hc] at hr
    · rintro ⟨hs, hc⟩
      simp [resubmitArtist, ha, hc, hs]
  · intro hc
    simp [resubmitArtist, ha, hc]
  · intro hc hs
    simp [resubmitArtist, ha, hc, hs]
  · intro arts2 h
    simp only [resubmitArtist, ha] at h
    by_cases hc : a.createdBy = userId2
    · by_cases hs : a.status = .rejected
      · simp only [hc, hs, ne_eq, not_true_eq_false, if_false, ite_false,
          Except.ok.injEq] at h
        subst h
        exact ⟨{ stageName := a.stageName, status := .pending, rejectedReason := none,
                 createdBy := userId2, activeEventIds := a.activeEventIds,
                 createdAt := a.createdAt }, by simp, rfl, rfl⟩
      · simp [hc, hs] at h
    · simp [hc] at h

/-- C2 counterexample to the claim as stated: for the approved event e1
created by alice, a resubmit by bob (not the creator, status not rejected)
fails with the permission error, not the invalid-transition error the
claim asserts for every record whose status is not rejected. -/
theorem resubmit_noncreator_gets_permission_error :
    errOf (resubmitEvent dbApproved "e1" "bob") = some Err.permissionDenied
  ∧ Err.permissionDenied ≠ Err.invalidTransition
  ∧ eApproved.status ≠ EStatus.rejected
  ∧ eApproved.createdBy ≠ "bob" := by decide

/-- Witness for C2 (amended) at the concrete instance: bob is not the
creator of e1, so the theorem yields the permission error there. -/
theorem resubmit_rejected_creator_only_witness :
    (dbApproved.events "e1" = some eApproved ∧ artsW "p1" = some aP)
  ∧ resubmitEvent dbApproved "e1" "bob" = .error .permissionDenied :=
  ⟨⟨rfl, rfl⟩,
   (resubmit_rejected_creator_only dbApproved artsW "e1" "bob" "p1" "u1" eApproved aP
     rfl rfl).2.1 (by decide)⟩

/-- Reading back the key just written into a function-embedded store. -/
lemma fun_update_self {β : Type} (f : String → Option β) (k : String) (v : β) :
    (fun q => if q = k then some v else f q) k = some v := by simp

/-- C3 (amended): review operations perform no check of the current status:
updateEventStatus and updateArtistStatus move an existing record to the
requested target status from any current status (so edges such as approved
to rejected occur), while resubmit is the only guarded transition and, when
it succeeds, moves a record from rejected to pending. -/
theorem review_unguarded_resubmit_guarded
    (db : DB) (arts : String → Option Artist)
    (eventId artistId : String) (st : XStatus) (yst : YStatus)
    (reason reason2 : Option String) (e : Event) (a : Artist)
    (he : db.events eventId = some e) (ha : arts artistId = some a) (fail : Bool) :
    (∃ db' e', updateEventStatus fail db eventId st reason = .ok (db', e')
        ∧ db'.events eventId = some e' ∧ e'.status = EStatus.ofX st)
  ∧ (∃ arts2, updateArtistStatus arts artistId yst reason2 = .ok arts2
        ∧ ∃ a2, arts2 artistId = some a2 ∧ a2.status = AStatus.ofY yst)
  ∧ (∀ userId db' e', resubmitEvent db eventId userId = .ok (db', e') →
        e.status = .rejected ∧ e'.status = .pending)
  ∧ (∀ userId arts2, resubmitArtist arts artistId userId = .ok arts2 →
        a.status = .rejected ∧ ∃ a2, arts2 artistId = some a2 ∧ a2.status = .pending) := by
  refine ⟨?_, ?_, ?_, ?_⟩
  · simp only [updateEventStatus, he]
    refine ⟨_, _, rfl, ?_, rfl⟩
    simp
  · simp only [updateArtistStatus, ha]
    refine ⟨_, rfl, ?_⟩
    exact ⟨_, fun_update_self arts artistId _, rfl⟩
  · intro userId db' e' h
    simp only [resubmitEvent, he] at h
    by_cases hc : e.createdBy = userId
    · by_cases hs : e.status = .rejected
      · refine ⟨hs, ?_⟩
        simp only [hc, hs, ne_eq, not_true_eq_false, if_false, ite_false,
          Except.ok.injEq, Prod.mk.injEq] at h
        obtain ⟨_, hev⟩ := h
        subst hev
        rfl
      · simp [hc, hs] at h
    · simp [hc] at h
  · intro userId arts2 h
    simp only [resubmitArtist, ha] at h
    by_cases hc : a.createdBy = userId
    · by_cases hs : a.status = .rejected
      · refine ⟨hs, ?_⟩
        simp only [hc, hs, ne_eq, not_true_eq_false, if_false, ite_false,
          Except.ok.injEq] at h
        subst h
        exact ⟨{ stageName := a.stageName, status := .pending, rejectedReason := none,
                 createdBy := userId, activeEventIds := a.activeEventIds,
                 createdAt := a.createdAt }, by simp, rfl⟩
      · simp [hc, hs] at h
    · simp [hc] at h

/-- C3 counterexample to the claim as stated: e1 is already approved, yet
the admin review updateEventStatus moves it to rejected, an edge absent
from the state machine of the claim; so review operations are not limited
to transitions out of pending. -/
theorem review_moves_approved_to_rejected :
    ((updateEventStatus false dbApproved "e1" XStatus.rejected none).toOption.map
      fun r => r.2.status) = some EStatus.rejected
  ∧ eApproved.status = EStatus.approved := by decide

/-- Witness for C3 (amended) at a concrete instance: the existing event e1
and artist p1, with target statuses approved. -/
theorem review_unguarded_resubmit_guarded_witness :
    (dbApproved.events "e1" = some eApproved ∧ artsW "p1" = some aP)
  ∧ (∃ db' e', updateEventStatus false dbApproved "e1" XStatus.approved none = .ok (db', e')
      ∧ db'.events "e1" = some e' ∧ e'.status = EStatus.ofX XStatus.approved) :=
  ⟨⟨rfl, rfl⟩,
   (review_unguarded_resubmit_guarded dbApproved artsW "e1" "p1" XStatus.approved
     YStatus.approved none none eApproved aP rfl rfl false).1⟩

/-- C9: a throw inside the cross-reference maintainer (crossFail true, the
try/catch in updateArtistsActiveEventIds and removeEventFromArtists logs
and swallows it) never propagates: updateEventStatus still returns ok with
the primary status write in place, and deleteEvent still deletes; in both
cases the artist store is simply left untouched. -/
theorem crossref_failure_never_blocks
    (db : DB) (eventId : String) (st : XStatus) (reason : Option String)
    (e : Event) (he : db.events eventId = some e) (userId : String) :
    (∃ db' e', updateEventStatus true db eventId st reason = .ok (db', e')
        ∧ db'.events eventId = some e' ∧ e'.status = EStatus.ofX st
        ∧ db'.artists = db.artists)
  ∧ (∃ db2, deleteEvent true db eventId userId "admin" = .ok db2
        ∧ db2.events eventId = none ∧ db2.artists = db.artists) := by
  constructor
  · simp only [updateEventStatus, he]
    refine ⟨_, _, rfl, ?_, rfl, rfl⟩
    simp
  · simp only [deleteEvent, he]
    rw [if_neg (by simp)]
    refine ⟨_, rfl, ?_, rfl⟩
    simp

/-- Witness for C9 at a concrete instance: reviewing and deleting e1 with a
failing cross-reference maintainer still succeeds. -/
theorem crossref_failure_never_blocks_witness :
    dbApproved.events "e1" = some eApproved
  ∧ (∃ db2, deleteEvent true dbApproved "e1" "alice" "admin" = .ok db2
      ∧ db2.events "e1" = none ∧ db2.artists = dbApproved.artists) :=
  ⟨rfl,
   (crossref_failure_never_blocks dbApproved "e1" XStatus.rejected none eApproved
     rfl "alice").2⟩

/-! ## Query pipeline (src/services/eventService.ts 166-259, 983-1015)

getEventsWithFilters fetches the cheap store subset (createdBy equality when
present; embedded as an in-memory equality filter over the full collection),
applies the remaining filters in memory, computes total and totalPages from
the filtered set, sorts, then slices the requested page. JavaScript
Array.prototype.sort is a stable sort by the comparator, embedded as
insertionSort on the corresponding relation. -/

/-- listHasPre pat s: pat is a prefix of s (character lists). -/
def listHasPre : List Char → List Char → Bool
  | [], _ => true
  | _ :: _, [] => false
  | p :: ps, c :: cs => p == c && listHasPre ps cs

/-- listHasSub pat s: pat occurs contiguously inside s. -/
def listHasSub (pat : List Char) : List Char → Bool
  | [] => pat.isEmpty
  | c :: cs => listHasPre pat (c :: cs) || listHasSub pat cs

/-- JavaScript String.prototype.includes. -/
def strIncludes (s pat : String) : Bool := listHasSub pat.toList s.toList

inductive SortBy where
  | title | startTime | createdAt
deriving DecidableEq, Repr

inductive SortOrder where
  | asc | desc
deriving DecidableEq, Repr

/-- Comparator value of sortEvents for a given sortBy; title uses
localeCompare, embedded as the sign of lexicographic string comparison. -/
def eventCmp (sb : SortBy) (a b : Event) : Int :=
  match sb with
  | .title => if a.title < b.title then -1 else if a.title = b.title then 0 else 1
  | .startTime => a.datetime.start - b.datetime.start
  | .createdAt => a.createdAt - b.createdAt

/-- The stable-sort order used by sortEvents: a stays before b when the
comparator value (negated for desc) is nonpositive; without sortBy the
default is createdAt descending. -/
def sortLe (sortBy : Option SortBy) (sortOrder : SortOrder) (a b : Event) : Bool :=
  match sortBy with
  | none => decide (b.createdAt ≤ a.createdAt)
  | some sb =>
    match sortOrder with
    | .desc => decide (-(eventCmp sb a b) ≤ 0)
    | .asc => decide (eventCmp sb a b ≤ 0)

/-- sortEvents (private sortEvents of EventService); sortOrder defaults to
desc when absent. -/
def sortEvents (events : List Event) (sortBy : Option SortBy)
    (sortOrder : Option SortOrder) : List Event :=
  List.insertionSort (fun a b => sortLe sortBy (sortOrder.getD .desc) a b = true) events

/-- Value of the status filter parameter (the string all disables it). -/
inductive StatusFilter where
  | all
  | only (s : EStatus)
deriving DecidableEq, Repr

structure EventFilterParams where
  page : Option Nat
  limit : Option Nat
  status : Option StatusFilter
  search : Option String
  region : Option String
  artistId : Option String
  createdBy : Option String
  sortBy : Option SortBy
  sortOrder : Option SortOrder
deriving Repr

/-- The OR-of-fields search predicate (title, artist names, description,
address), applied to an already lowercased search term. -/
def matchesSearch (searchTerm : String) (e : Event) : Bool :=
  strIncludes e.title.toLower searchTerm
  || e.artists.any (fun artist => strIncludes artist.name.toLower searchTerm)
  || (match e.description with
      | some d => strIncludes d.toLower searchTerm
      | none => false)
  || strIncludes e.location.address.toLower searchTerm

/-- All filter stages of getEventsWithFilters before sorting and paging,
in source order: createdBy (store query), status, search, region, artistId. -/
def filteredEvents (filters : EventFilterParams) (events : List Event) : List Event :=
  let events := match filters.createdBy with
    | some uid => events.filter fun e => decide (e.createdBy = uid)
    | none => events
  let events := match filters.status with
    | some (.only s) => events.filter fun e => decide (e.status = s)
    | _ => events
  let events := match filters.search with
    | some srch => events.filter (matchesSearch srch.toLower)
    | none => events
  let events := match filters.region with
    | some region => events.filter fun e => strIncludes e.location.address.toLower region.toLower
    | none => events
  match filters.artistId with
  | some aid => events.filter fun e => e.artists.any fun artist => decide (artist.id = aid)
  | none => events

structure Pagination where
  page : Nat
  limit : Nat
  total : Nat
  totalPages : Nat
deriving DecidableEq, Repr

structure EventsResponse where
  events : List Event
  pagination : Pagination
deriving DecidableEq, Repr

/-- getEventsWithFilters. page and limit default to 1 and 50 (0 is falsy in
the source defaulting expressions), limit is capped at 100, skip is
(page - 1) * limit, total and totalPages come from the filtered set before
pagination, and the page is the slice [skip, skip + limit) of the sorted
filtered set. -/
def getEventsWithFilters (filters : EventFilterParams) (events : List Event) :
    EventsResponse :=
  let page := match filters.page with
    | some p => if p = 0 then 1 else p
    | none => 1
  let limit := min (match filters.limit with
    | some l => if l = 0 then 50 else l
    | none => 50) 100
  let skip := (page - 1) * limit
  let filtered := filteredEvents filters events
  let filteredTotal := filtered.length
  let filteredTotalPages := (filteredTotal + limit - 1) / limit
  let sortedEvents := sortEvents filtered filters.sortBy filters.sortOrder
  let finalPaginatedEvents := (sortedEvents.drop skip).take limit
  { events := finalPaginatedEvents,
    pagination := { page := page, limit := limit,
                    total := filteredTotal, totalPages := filteredTotalPages } }

/-- Splitting a list into consecutive L-sized slices and concatenating the
first k of them reproduces the list once k * L covers its length. -/
lemma range_flatMap_drop_take {α : Type} :
    ∀ (k : Nat) (L : Nat) (l : List α), 0 < L → l.length ≤ k * L →
      ((List.range k).flatMap fun p => (l.drop (p * L)).take L) = l := by
  intro k
  induction k with
  | zero =>
    intro L l _ hlen
    have : l = [] := List.eq_nil_of_length_eq_zero (by omega)
    simp [this]
  | succ k ih =>
    intro L l hL hlen
    rw [List.range_succ_eq_map, List.flatMap_cons, List.flatMap_map]
    have hstep : ((List.range k).flatMap fun p => (l.drop (Nat.succ p * L)).take L)
        = (List.range k).flatMap fun p => ((l.drop L).drop (p * L)).take L := by
      apply List.flatMap_congr
      intro p _
      rw [List.drop_drop]
      congr 2
      simp [Nat.succ_eq_add_one]
      ring
    calc (l.drop (0 * L)).take L
          ++ (List.range k).flatMap (fun p => (l.drop (Nat.succ p * L)).take L)
        = l.take L ++ (List.range k).flatMap fun p => ((l.drop L).drop (p * L)).take L := by
          rw [hstep]; simp
      _ = l.take L ++ l.drop L := by
          have hd : (k + 1) * L = k * L + L := by ring
          rw [ih L (l.drop L) hL (by simp; omega)]
      _ = l := List.take_append_drop L l

/-- The length of the sorted list equals the length of its input. -/
lemma length_sortEvents (l : List Event) (sb : Option SortBy) (so : Option SortOrder) :
    (sortEvents l sb so).length = l.length := by
  unfold sortEvents
  exact List.length_insertionSort _ l

/-- Covering bound for the ceiling division used by totalPages. -/
lemma le_ceil_mul (N L : Nat) (hL : 0 < L) : N ≤ ((N + L - 1) / L) * L := by
  have hmod := Nat.div_add_mod (N + L - 1) L
  have hlt : (N + L - 1) % L < L := Nat.mod_lt _ hL
  have hcomm : ((N + L - 1) / L) * L = L * ((N + L - 1) / L) := Nat.mul_comm _ _
  omega

/-- C5: the query pipeline reports total as the size of the filtered
pre-pagination set and totalPages as its ceiling division by limit, the
computed limit always lies in [1, 100], page p (1-based) is the slice
[(p - 1) * limit, p * limit) of the sorted filtered set, and concatenating
pages 1 through totalPages reproduces the whole sorted filtered set with no
duplicates or gaps. -/
theorem pagination_partitions_sorted_set (filters : EventFilterParams)
    (events : List Event) :
    (getEventsWithFilters filters events).pagination.total
        = (filteredEvents filters events).length
  ∧ (getEventsWithFilters filters events).pagination.totalPages
      = ((getEventsWithFilters filters events).pagination.total
          + (getEventsWithFilters filters events).pagination.limit - 1)
        / (getEventsWithFilters filters events).pagination.limit
  ∧ 1 ≤ (getEventsWithFilters filters events).pagination.limit
  ∧ (getEventsWithFilters filters events).pagination.limit ≤ 100
  ∧ (∀ p : Nat,
      (getEventsWithFilters { filters with page := some (p + 1) } events).events
        = ((sortEvents (filteredEvents filters events) filters.sortBy
            filters.sortOrder).drop
              (p * (getEventsWithFilters filters events).pagination.limit)).take
            (getEventsWithFilters filters events).pagination.limit)
  ∧ ((List.range (getEventsWithFilters filters events).pagination.totalPages).flatMap
        fun p => (getEventsWithFilters { filters with page := some (p + 1) } events).events)
      = sortEvents (filteredEvents filters events) filters.sortBy filters.sortOrder := by
  have hfe : ∀ x, filteredEvents { filters with page := x } events
      = filteredEvents filters events := fun _ => rfl
  have hlim1 : 1 ≤ (getEventsWithFilters filters events).pagination.limit := by
    simp only [getEventsWithFilters]
    cases hfl : filters.limit with
    | none => simp
    | some l =>
      by_cases h0 : l = 0 <;> simp [h0] <;> omega
  have hlim100 : (getEventsWithFilters filters events).pagination.limit ≤ 100 := by
    simp only [getEventsWithFilters]
    cases hfl : filters.limit with
    | none => simp
    | some l => by_cases h0 : l = 0 <;> simp [h0]
  have hpage : ∀ p : Nat,
      (getEventsWithFilters { filters with page := some (p + 1) } events).events
        = ((sortEvents (filteredEvents filters events) filters.sortBy
            filters.sortOrder).drop
              (p * (getEventsWithFilters filters events).pagination.limit)).take
            (getEventsWithFilters filters events).pagination.limit := by
    intro p
    simp [getEventsWithFilters, hfe, Nat.add_sub_cancel]
  refine ⟨rfl, rfl, hlim1, hlim100, hpage, ?_⟩
  rw [List.flatMap_congr fun p _ => hpage p]
  apply range_flatMap_drop_take
  · omega
  · rw [length_sortEvents]
    have htp : (getEventsWithFilters filters events).pagination.totalPages
        = ((filteredEvents filters events).length
            + (getEventsWithFilters filters events).pagination.limit - 1)
          / (getEventsWithFilters filters events).pagination.limit := rfl
    rw [htp]
    exact le_ceil_mul _ _ (by omega)

/-! ## Map data and geo-window pass (src/services/eventService.ts 262-415)

getMapData fetches the approved events, keeps the non-ended ones, applies
the optional status refinement (active / upcoming), the artistId, search
and region filters, then the view-window filter when bounds are given, and
finally projects events with truthy coordinates into the map format. The
window filter checks coordinate presence with JavaScript truthiness, so a
latitude or longitude equal to 0 fails the check exactly like a missing
one. Coordinates are embedded as rationals. The center plus zoom window
branch is not embedded: no claim refers to it and its Mercator correction
uses the real cosine. -/

inductive MStatus where
  | active | upcoming | all
deriving DecidableEq, Repr

/-- The four numbers of the bounds parameter, already split from the
comma-separated string lat1,lng1,lat2,lng2 by the embedding. -/
structure BoundsParam where
  lat1 : ℚ
  lng1 : ℚ
  lat2 : ℚ
  lng2 : ℚ
deriving DecidableEq, Repr

structure ViewBounds where
  minLat : ℚ
  maxLat : ℚ
  minLng : ℚ
  maxLng : ℚ
deriving DecidableEq, Repr

/-- Window corners normalized with min and max per axis. -/
def computeViewBounds (b : BoundsParam) : ViewBounds :=
  { minLat := min b.lat1 b.lat2, maxLat := max b.lat1 b.lat2,
    minLng := min b.lng1 b.lng2, maxLng := max b.lng1 b.lng2 }

structure MapDataParams where
  status : Option MStatus
  artistId : Option String
  search : Option String
  region : Option String
  bounds : Option BoundsParam
deriving Repr

/-- The view-window predicate: events whose coordinates are missing, or
falsy (lat or lng equal to 0), are excluded with a warning; otherwise the
event passes exactly when both coordinates lie inside the closed bounds. -/
def eventInWindow (vb : ViewBounds) (e : Event) : Bool :=
  match e.location.coordinates with
  | none => false
  | some c =>
    if c.lat = 0 ∨ c.lng = 0 then false
    else decide (vb.minLat ≤ c.lat) && decide (c.lat ≤ vb.maxLat)
      && decide (vb.minLng ≤ c.lng) && decide (c.lng ≤ vb.maxLng)

/-- The view-window filter of getMapData. -/
def windowFilter (vb : ViewBounds) (events : List Event) : List Event :=
  events.filter (eventInWindow vb)

/-- Truthiness of the optional-chained coordinates, as used by the final
projection filter of getMapData. -/
def coordsTruthy (c : Option Coords) : Bool :=
  match c with
  | none => false
  | some cc => decide (cc.lat ≠ 0) && decide (cc.lng ≠ 0)

/-- Every filter stage of getMapData, ending with the projection filter. -/
def mapPipeline (params : MapDataParams) (events : List Event) (now : Int) :
    List Event :=
  let status := params.status.getD .active
  let events := events.filter fun e => decide (e.status = EStatus.approved)
  let events := events.filter fun e => decide (now ≤ e.datetime.endMs)
  let events :=
    if status ≠ MStatus.all then
      events.filter fun e =>
        match status with
        | .active => decide (e.datetime.start ≤ now) && decide (now ≤ e.datetime.endMs)
        | .upcoming => decide (now < e.datetime.start)
        | .all => true
    else events
  let events := match params.artistId with
    | some aid => events.filter fun e => e.artists.any fun a => decide (a.id = aid)
    | none => events
  let events := match params.search with
    | some srch => events.filter (matchesSearch srch.toLower)
    | none => events
  let events := match params.region with
    | some region => events.filter fun e => strIncludes e.location.address.toLower region.toLower
    | none => events
  let events := match params.bounds with
    | some b => windowFilter (computeViewBounds b) events
    | none => events
  events.filter fun e => coordsTruthy e.location.coordinates

/-- Reduced projection of an event for the map response. -/
structure MapEvent where
  id : String
  title : String
  location : Location
  start : Int
  endMs : Int
deriving DecidableEq, Repr

structure MapDataResponse where
  events : List MapEvent
  total : Nat
deriving DecidableEq, Repr

/-- getMapData: the filter pipeline followed by the reduced projection. -/
def getMapData (params : MapDataParams) (events : List Event) (now : Int) :
    MapDataResponse :=
  let mapEvents := (mapPipeline params events now).map fun e =>
    { id := e.id, title := e.title, location := e.location,
      start := e.datetime.start, endMs := e.datetime.endMs : MapEvent }
  { events := mapEvents, total := mapEvents.length }

/-- C6 (amended): in the geo-window pass, an event whose coordinates are
present and both nonzero is kept exactly when its latitude and longitude
lie in the closed ranges of the window, so a point exactly on a bounds edge
is included and a point outside any axis is excluded; an event lacking
coordinates is excluded without an error. The claim as stated fails for a
zero coordinate, which the truthiness check excludes even inside the
window. -/
theorem geo_window_edge_inclusive (vb : ViewBounds) (events : List Event)
    (e : Event) (c : Coords) (hc : e.location.coordinates = some c)
    (hlat : c.lat ≠ 0) (hlng : c.lng ≠ 0) :
    (e ∈ windowFilter vb events ↔
      e ∈ events ∧ (vb.minLat ≤ c.lat ∧ c.lat ≤ vb.maxLat
        ∧ vb.minLng ≤ c.lng ∧ c.lng ≤ vb.maxLng))
  ∧ ∀ e2 : Event, e2.location.coordinates = none → e2 ∉ windowFilter vb events := by
  constructor
  · rw [windowFilter, List.mem_filter]
    have hwin : eventInWindow vb e
        = (decide (vb.minLat ≤ c.lat) && decide (c.lat ≤ vb.maxLat)
            && decide (vb.minLng ≤ c.lng) && decide (c.lng ≤ vb.maxLng)) := by
      rw [eventInWindow, hc]
      simp [hlat, hlng]
    rw [hwin]
    simp [and_assoc]
  · intro e2 hc2 hmem
    rw [windowFilter, List.mem_filter, eventInWindow, hc2] at hmem
    exact absurd hmem.2 (by simp)

/-- Approved future event at latitude 0, longitude 10 (used to exhibit the
zero-coordinate behavior of the geo-window). -/
def eZero : Event :=
  { id := "e0", title := "zero", description := none,
    artists := [{ id := "p1", name := "star" }],
    location := { name := "shop", address := "road", coordinates := some ⟨0, 10⟩ },
    datetime := { start := 0, endMs := 1000 },
    status := .approved, rejectedReason := none, createdBy := "alice", createdAt := 0 }

/-- C6 counterexample to the claim as stated: eZero has numeric coordinates
lat 0, lng 10, both inside the window [-5, 5] x [5, 15], yet the window
filter excludes it because 0 is falsy in the coordinate presence check. -/
theorem geo_window_zero_latitude_excluded :
    windowFilter (computeViewBounds ⟨-5, 5, 5, 15⟩) [eZero] = []
  ∧ ((computeViewBounds ⟨-5, 5, 5, 15⟩).minLat ≤ 0
      ∧ (0 : ℚ) ≤ (computeViewBounds ⟨-5, 5, 5, 15⟩).maxLat
      ∧ (computeViewBounds ⟨-5, 5, 5, 15⟩).minLng ≤ 10
      ∧ (10 : ℚ) ≤ (computeViewBounds ⟨-5, 5, 5, 15⟩).maxLng)
  ∧ eZero.location.coordinates = some ⟨0, 10⟩ := by decide

/-- Concrete window and event used by the C6 witness: latitude exactly on
the maxLat edge of the window. -/
def eEdge : Event :=
  { id := "e7", title := "edge", description := none,
    artists := [{ id := "p1", name := "star" }],
    location := { name := "shop", address := "road", coordinates := some ⟨25, 121⟩ },
    datetime := { start := 0, endMs := 1000 },
    status := .approved, rejectedReason := none, createdBy := "alice", createdAt := 0 }

/-- Witness for C6 (amended): the event with lat 25 sits exactly on the
maxLat edge of the window built from corners (20,120) and (25,122), and the
theorem instance shows it is kept. -/
theorem geo_window_edge_inclusive_witness :
    (eEdge.location.coordinates = some ⟨25, 121⟩ ∧ (25 : ℚ) ≠ 0 ∧ (121 : ℚ) ≠ 0)
  ∧ eEdge ∈ windowFilter (computeViewBounds ⟨20, 120, 25, 122⟩) [eEdge] :=
  ⟨⟨rfl, by decide, by decide⟩,
   ((geo_window_edge_inclusive (computeViewBounds ⟨20, 120, 25, 122⟩) [eEdge] eEdge
      ⟨25, 121⟩ rfl (by decide) (by decide)).1).2 ⟨by decide, by decide⟩⟩

/-- C10: an approved, non-ended event whose coordinates are present but
whose latitude or longitude equals 0 is excluded from the map result, both
by the in-window coordinate presence check (for every window and input
list) and by the final projection filter of the pipeline. -/
theorem zero_coordinate_excluded_from_map (params : MapDataParams)
    (events l : List Event) (now : Int) (e : Event) (c : Coords)
    (he : e ∈ events) (hst : e.status = .approved) (hend : now ≤ e.datetime.endMs)
    (hc : e.location.coordinates = some c) (hzero : c.lat = 0 ∨ c.lng = 0) :
    (∀ vb : ViewBounds, e ∉ windowFilter vb l)
  ∧ e ∉ mapPipeline params events now := by
  constructor
  · intro vb hmem
    simp only [windowFilter, List.mem_filter, eventInWindow, hc] at hmem
    rw [if_pos hzero] at hmem
    exact absurd hmem.2 (by simp)
  · intro hmem
    rw [mapPipeline] at hmem
    rw [List.mem_filter] at hmem
    have htr := hmem.2
    simp only [coordsTruthy, hc] at htr
    rcases hzero with h | h <;> simp [h] at htr

/-- Witness for C10 at the concrete instance eZero with no bounds given. -/
theorem zero_coordinate_excluded_from_map_witness :
    (eZero ∈ [eZero] ∧ eZero.status = .approved ∧ (0 : Int) ≤ eZero.datetime.endMs
      ∧ eZero.location.coordinates = some ⟨0, 10⟩ ∧ ((0 : ℚ) = 0 ∨ (10 : ℚ) = 0))
  ∧ eZero ∉ mapPipeline ⟨none, none, none, none, none⟩ [eZero] 0 :=
  ⟨⟨by decide, rfl, by decide, rfl, Or.inl rfl⟩,
   (zero_coordinate_excluded_from_map ⟨none, none, none, none, none⟩ [eZero] [] 0 eZero
      ⟨0, 10⟩ (by decide) rfl (by decide) rfl (Or.inl rfl)).2⟩

/-! ## Favorite membership (checkFavoritesBatch of the user service)

The Firestore in query accepts at most 30 values, so the event ids are
sliced into groups of 30, each group is queried independently for rows of
the user, and the matching event ids are accumulated into one Set. -/

/-- The source loop for (let i = 0; i < n; i += 30) slice(i, i + 30),
embedded as recursion on the remaining list. -/
def chunkList : List String → List (List String)
  | [] => []
  | x :: xs => ((x :: xs).take 30) :: chunkList ((x :: xs).drop 30)
termination_by l => l.length
decreasing_by simp; omega

/-- JavaScript Set.add: append the element unless already present. -/
def addToSet (s : List String) (x : String) : List String :=
  if x ∈ s then s else s ++ [x]

/-- The store membership-query primitive for one chunk: rows of the user
whose eventId occurs in the chunk. -/
def chunkQuery (favs : List Favorite) (userId : String) (chunk : List String) :
    List Favorite :=
  favs.filter fun f => decide (f.userId = userId) && decide (f.eventId ∈ chunk)

/-- checkFavoritesBatch: empty input short-circuits; otherwise every chunk
is queried and the resulting event ids are unioned into one set. -/
def checkFavoritesBatch (favs : List Favorite) (userId : String)
    (eventIds : List String) : List String :=
  if eventIds.isEmpty then []
  else
    (chunkList eventIds).foldl
      (fun acc chunk =>
        (chunkQuery favs userId chunk).foldl (fun s f => addToSet s f.eventId) acc)
      []

lemma mem_addToSet (s : List String) (x y : String) :
    y ∈ addToSet s x ↔ y ∈ s ∨ y = x := by
  unfold addToSet
  by_cases h : x ∈ s
  · simp only [if_pos h]
    constructor
    · exact fun hy => Or.inl hy
    · rintro (hy | rfl)
      · exact hy
      · exact h
  · simp [h]

lemma mem_favFold (favs2 : List Favorite) :
    ∀ (acc : List String) (x : String),
      x ∈ favs2.foldl (fun s f => addToSet s f.eventId) acc
        ↔ x ∈ acc ∨ ∃ f ∈ favs2, f.eventId = x := by
  induction favs2 with
  | nil => simp
  | cons f fs ih =>
    intro acc x
    rw [List.foldl_cons, ih, mem_addToSet]
    constructor
    · rintro ((h | rfl) | ⟨g, hg, rfl⟩)
      · exact Or.inl h
      · exact Or.inr ⟨f, by simp, rfl⟩
      · exact Or.inr ⟨g, by simp [hg], rfl⟩
    · rintro (h | ⟨g, hg, rfl⟩)
      · exact Or.inl (Or.inl h)
      · rcases List.mem_cons.mp hg with rfl | hg2
        · exact Or.inl (Or.inr rfl)
        · exact Or.inr ⟨g, hg2, rfl⟩

lemma mem_chunkQuery (favs : List Favorite) (userId : String)
    (chunk : List String) (f : Favorite) :
    f ∈ chunkQuery favs userId chunk
      ↔ f ∈ favs ∧ f.userId = userId ∧ f.eventId ∈ chunk := by
  simp [chunkQuery, List.mem_filter, and_assoc]

lemma mem_chunkFold (favs : List Favorite) (userId : String) :
    ∀ (chunks : List (List String)) (acc : List String) (x : String),
      x ∈ chunks.foldl
            (fun acc chunk =>
              (chunkQuery favs userId chunk).foldl (fun s f => addToSet s f.eventId) acc)
            acc
        ↔ x ∈ acc
          ∨ ∃ c ∈ chunks, ∃ f ∈ favs, f.userId = userId ∧ f.eventId = x ∧ x ∈ c := by
  intro chunks
  induction chunks with
  | nil => simp
  | cons c cs ih =>
    intro acc x
    rw [List.foldl_cons, ih, mem_favFold]
    constructor
    · rintro ((h | ⟨f, hf, rfl⟩) | ⟨c2, hc2, f, hf, hu, rfl, hxc⟩)
      · exact Or.inl h
      · have hm := (mem_chunkQuery favs userId c f).mp hf
        exact Or.inr ⟨c, by simp, f, hm.1, hm.2.1, rfl, hm.2.2⟩
      · exact Or.inr ⟨c2, by simp [hc2], f, hf, hu, rfl, hxc⟩
    · rintro (h | ⟨c2, hc2, f, hf, hu, rfl, hxc⟩)
      · exact Or.inl (Or.inl h)
      · rcases List.mem_cons.mp hc2 with rfl | hcs
        · exact Or.inl (Or.inr ⟨f, (mem_chunkQuery favs userId c2 f).mpr ⟨hf, hu, hxc⟩, rfl⟩)
        · exact Or.inr ⟨c2, hcs, f, hf, hu, rfl, hxc⟩

/-- The chunks of a list cover exactly its elements. -/
lemma mem_chunkList : ∀ (l : List String) (x : String),
    (∃ c ∈ chunkList l, x ∈ c) ↔ x ∈ l := by
  have key : ∀ (n : Nat) (l : List String), l.length ≤ n →
      ∀ x, (∃ c ∈ chunkList l, x ∈ c) ↔ x ∈ l := by
    intro n
    induction n with
    | zero =>
      intro l hl x
      have hnil : l = [] := List.eq_nil_of_length_eq_zero (by omega)
      subst hnil
      simp [chunkList]
    | succ n ih =>
      intro l hl x
      match l with
      | [] => simp [chunkList]
      | y :: ys =>
        rw [chunkList]
        have hl2 : ys.length + 1 ≤ n + 1 := by simpa using hl
        have ihd := ih ((y :: ys).drop 30) (by simp; omega) x
        constructor
        · rintro ⟨c, hc, hxc⟩
          rcases List.mem_cons.mp hc with rfl | hcs
          · exact List.mem_of_mem_take hxc
          · have hxd := ihd.mp ⟨c, hcs, hxc⟩
            exact List.mem_of_mem_drop hxd
        · intro hx
          have hsplit : x ∈ (y :: ys).take 30 ∨ x ∈ (y :: ys).drop 30 := by
            rw [← List.mem_append, List.take_append_drop]
            exact hx
          rcases hsplit with h | h
          · exact ⟨(y :: ys).take 30, by simp, h⟩
          · obtain ⟨c, hc, hxc⟩ := ihd.mpr h
            exact ⟨c, List.mem_cons_of_mem _ hc, hxc⟩
  intro l x
  exact key l.length l le_rfl x

/-- Membership characterization of checkFavoritesBatch: the result is the
set of input ids the user has favorited. -/
lemma mem_checkFavoritesBatch (favs : List Favorite) (userId : String)
    (eventIds : List String) (x : String) :
    x ∈ checkFavoritesBatch favs userId eventIds
      ↔ x ∈ eventIds ∧ ∃ f ∈ favs, f.userId = userId ∧ f.eventId = x := by
  unfold checkFavoritesBatch
  by_cases hids : eventIds.isEmpty
  · rw [if_pos hids]
    rw [List.isEmpty_iff] at hids
    simp [hids]
  · rw [if_neg hids, mem_chunkFold]
    simp only [List.not_mem_nil, false_or]
    constructor
    · rintro ⟨c, hc, f, hf, hu, hfx, hxc⟩
      exact ⟨(mem_chunkList eventIds x).mp ⟨c, hc, hxc⟩, f, hf, hu, hfx⟩
    · rintro ⟨hx, f, hf, hu, hfx⟩
      obtain ⟨c, hc, hxc⟩ := (mem_chunkList eventIds x).mpr hx
      exact ⟨c, hc, f, hf, hu, hfx, hxc⟩

/-- C8: the batched favorite-membership check returns, as a set, exactly
the input ids the user has favorited, and it coincides with the union of
the per-chunk checks over the fixed-size chunks of the input. -/
theorem checkFavoritesBatch_union_of_chunks (favs : List Favorite)
    (userId : String) (eventIds : List String) (x : String) :
    (x ∈ checkFavoritesBatch favs userId eventIds
      ↔ x ∈ eventIds ∧ ∃ f ∈ favs, f.userId = userId ∧ f.eventId = x)
  ∧ (x ∈ checkFavoritesBatch favs userId eventIds
      ↔ ∃ c ∈ chunkList eventIds, x ∈ checkFavoritesBatch favs userId c) := by
  refine ⟨mem_checkFavoritesBatch favs userId eventIds x, ?_⟩
  rw [mem_checkFavoritesBatch]
  constructor
  · rintro ⟨hx, f, hf, hu, hfx⟩
    obtain ⟨c, hc, hxc⟩ := (mem_chunkList eventIds x).mpr hx
    exact ⟨c, hc, (mem_checkFavoritesBatch favs userId c x).mpr ⟨hxc, f, hf, hu, hfx⟩⟩
  · rintro ⟨c, hc, hxbc⟩
    obtain ⟨hxc, f, hf, hu, hfx⟩ := (mem_checkFavoritesBatch favs userId c x).mp hxbc
    exact ⟨(mem_chunkList eventIds x).mp ⟨c, hc, hxc⟩, f, hf, hu, hfx⟩
